import Mathlib

/-!
Shallow embedding of the core ledger / pricing logic of `app.py`
(BTC trading game: deposits, leveraged long/short positions, close with
realized PnL).  Money amounts are modelled as exact rationals; the SQLite
tables `users`, `trades` and `deposits` become lists of rows, and each
Flask route handler becomes a state-transforming function.
-/

namespace Pvp

/-- A row of the `users` table: `id`, `balance`. -/
structure UserRow where
  id : Nat
  balance : ℚ
deriving DecidableEq, Repr

/-- A row of the `trades` table: `id`, `user_id`, `type` (side string),
`amount` (size), `entry_price`, `leverage`, `fee` (the value stored in the
`fee` column), `pnl`, `status`.  Timestamps are not modelled. -/
structure Trade where
  id : Nat
  user_id : Nat
  type : String
  amount : ℚ
  entry_price : ℚ
  leverage : ℤ
  fee : ℚ
  pnl : ℚ
  status : String
deriving DecidableEq, Repr

/-- A row of the `deposits` table: `user_id`, `amount`, `status`. -/
structure DepositRow where
  user_id : Nat
  amount : ℚ
  status : String
deriving DecidableEq, Repr

/-- The database state: the three tables, plus the autoincrement counter
for `trades.id`. -/
structure DBState where
  users : List UserRow
  trades : List Trade
  deposits : List DepositRow
  next_trade_id : Nat
deriving DecidableEq, Repr

/-- Python `round(x, 2)` on the exact rational value. -/
def round2 (x : ℚ) : ℚ := (round (x * 100) : ℤ) / 100

/-- `TradingEngine.calculate_pnl`: long side iff `trade['type'] == 'long'`,
everything else takes the short branch; then the stored `fee` column value is
multiplied by `entry_price * amount` and subtracted, and the result is rounded
to 2 decimal places. -/
def calculate_pnl (trade : Trade) (current_price : ℚ) : ℚ :=
  let pnl : ℚ :=
    if trade.type = "long" then
      (current_price - trade.entry_price) * trade.amount * (trade.leverage : ℚ)
    else
      (trade.entry_price - current_price) * trade.amount * (trade.leverage : ℚ)
  round2 (pnl - trade.entry_price * trade.amount * trade.fee)

/-- Upstream price fetch outcome: a successfully parsed response value, or
any failure (network error, malformed response, timeout). -/
inductive UpstreamResult where
  | price (p : ℚ)
  | failure
deriving DecidableEq, Repr

/-- `get_btc_price`: returns the parsed upstream value on success; on any
exception falls back to `round(random.uniform(30000, 60000), 2)`, modelled by
rounding the provided random sample. -/
def get_btc_price (upstream : UpstreamResult) (fallback_sample : ℚ) : ℚ :=
  match upstream with
  | .price p => p
  | .failure => round2 fallback_sample

/-- `SELECT * FROM users WHERE id = ? LIMIT 1` (sqlite `fetchone`). -/
def findUser (s : DBState) (user_id : Nat) : Option UserRow :=
  s.users.find? (fun u => u.id == user_id)

/-- `UPDATE users SET balance = balance + d WHERE id = user_id`. -/
def updBal (l : List UserRow) (user_id : Nat) (d : ℚ) : List UserRow :=
  l.map (fun u => if u.id == user_id then { u with balance := u.balance + d } else u)

/-- The balance the handlers read for an account (`user['balance']` of the
fetched row; 0 if the account does not exist, a case the handlers never
reach for existing sessions). -/
def getBalance (s : DBState) (user_id : Nat) : ℚ :=
  ((findUser s user_id).map UserRow.balance).getD 0

/-- The account row exists (`fetchone` returns a row). -/
def userExists (s : DBState) (user_id : Nat) : Bool :=
  (findUser s user_id).isSome

/-- The `/deposit` route: no validation of `amount` whatsoever; credits the
balance and inserts a `deposits` row with status `completed`. -/
def deposit (s : DBState) (user_id : Nat) (amount : ℚ) : DBState :=
  { s with
    users := updBal s.users user_id amount
    deposits := s.deposits ++ [⟨user_id, amount, "completed"⟩] }

/-- `required_margin = btc_price * amount * leverage * 0.01` (1% margin). -/
def required_margin (btc_price amount : ℚ) (leverage : ℤ) : ℚ :=
  btc_price * amount * (leverage : ℚ) * (1 / 100)

/-- `fee = btc_price * amount * 0.001` (0.1% fee), the value inserted into
the `fee` column at open time. -/
def trade_fee (btc_price amount : ℚ) : ℚ :=
  btc_price * amount * (1 / 1000)

/-- The `/trade` route (open a position).  Reads the user row, checks
`balance < required_margin` only (the fee is not part of the check), inserts
the new trade row with status `open` and `fee` = the absolute fee amount,
and debits `required_margin + fee`.  A missing user row makes the handler
crash before any mutation, modelled as an error. -/
def trade (s : DBState) (user_id : Nat) (trade_type : String) (amount : ℚ)
    (leverage : ℤ) (btc_price : ℚ) : Except String DBState :=
  match findUser s user_id with
  | none => .error "user row missing"
  | some user =>
    let rm : ℚ := required_margin btc_price amount leverage
    if user.balance < rm then
      .error "Insufficient balance"
    else
      let fee : ℚ := trade_fee btc_price amount
      .ok { s with
        trades := s.trades ++
          [⟨s.next_trade_id, user_id, trade_type, amount, btc_price, leverage, fee, 0, "open"⟩]
        users := updBal s.users user_id (-(rm + fee))
        next_trade_id := s.next_trade_id + 1 }

/-- `SELECT * FROM trades WHERE id = ? AND user_id = ?` — note: no filter on
`status`. -/
def findTrade (s : DBState) (trade_id user_id : Nat) : Option Trade :=
  s.trades.find? (fun t => t.id == trade_id && t.user_id == user_id)

/-- The `/close_trade/<trade_id>` route.  If the row (of any status) is
found for this user: compute the PnL at the current price, set
`status = 'closed'` and `pnl` on every `trades` row with that id, and credit
the PnL to the balance.  If no row is found, redirect with no mutation. -/
def close_trade (s : DBState) (user_id : Nat) (trade_id : Nat) (btc_price : ℚ) : DBState :=
  match findTrade s trade_id user_id with
  | none => s
  | some t =>
    let pnl : ℚ := calculate_pnl t btc_price
    { s with
      trades := s.trades.map (fun u =>
        if u.id == trade_id then { u with status := "closed", pnl := pnl } else u)
      users := updBal s.users user_id pnl }

/-- One Ledger operation a caller can issue (deposit, open via `/trade`,
close via `/close_trade`). -/
inductive Op where
  | dep (user_id : Nat) (amount : ℚ)
  | opn (user_id : Nat) (trade_type : String) (amount : ℚ) (leverage : ℤ) (price : ℚ)
  | cls (user_id : Nat) (trade_id : Nat) (price : ℚ)
deriving DecidableEq, Repr

/-- Run one operation; a failed open (insufficient balance or missing user
row) leaves the state unchanged. -/
def runOp (s : DBState) : Op → DBState
  | .dep u a => deposit s u a
  | .opn u ty a lev p =>
    match trade s u ty a lev p with
    | .ok s' => s'
    | .error _ => s
  | .cls u tid p => close_trade s u tid p

/-- Run a sequence of operations. -/
def runOps (s : DBState) : List Op → DBState
  | [] => s
  | op :: ops => runOps (runOp s op) ops

/-- The balance delta the spec's accounting identity attributes to one
operation for account `uid`: the deposited amount, minus margin+fee when an
open succeeds, plus the PnL credited when a close finds the trade row;
0 for operations on other accounts and for failed opens / closes. -/
def opDelta (s : DBState) (uid : Nat) : Op → ℚ
  | .dep u a => if u = uid then a else 0
  | .opn u _ a lev p =>
    match findUser s u with
    | none => 0
    | some usr =>
      if usr.balance < required_margin p a lev then 0
      else if u = uid then -(required_margin p a lev + trade_fee p a) else 0
  | .cls u tid p =>
    match findTrade s tid u with
    | none => 0
    | some t => if u = uid then calculate_pnl t p else 0

/-- Sum of the accounting deltas of a sequence of operations for account
`uid`, threading the state each operation runs in. -/
def sumDeltas (s : DBState) (uid : Nat) : List Op → ℚ
  | [] => 0
  | op :: ops => opDelta s uid op + sumDeltas (runOp s op) uid ops

/-- A fresh account with balance 10000 (the schema default). -/
def s10000 : DBState := ⟨[⟨1, 10000⟩], [], [], 1⟩

/-- An account with balance 500. -/
def s500 : DBState := ⟨[⟨1, 500⟩], [], [], 1⟩

/-- An account with balance 100. -/
def s100 : DBState := ⟨[⟨1, 100⟩], [], [], 1⟩

/-- An account with balance 100 holding one already-closed trade
(the state reached by opening from `s10000` would also do; this isolates
the close-again behavior). -/
def sClosed : DBState :=
  ⟨[⟨1, 100⟩], [⟨1, 1, "long", 1/10, 50000, 10, 5, -24000, "closed"⟩], [], 2⟩

/-- The operation list used to instantiate the conservation theorem. -/
def opsDemo : List Op :=
  [.dep 1 500, .opn 1 "long" (1/10) 10 50000, .cls 1 1 51000, .opn 1 "short" 100 10 50000]

/-- The balance update of `updBal` never changes a row's `id`. -/
theorem updBal_row_id (u : Nat) (d : ℚ) (a : UserRow) :
    (if a.id == u then { a with balance := a.balance + d } else a).id = a.id := by
  by_cases h : a.id == u <;> simp [h]

/-- `find?` on an `updBal`-mapped table is the update of `find?` on the
original table: the row lookup predicate only inspects `id`. -/
theorem find?_updBal (l : List UserRow) (u uid : Nat) (d : ℚ) :
    (updBal l u d).find? (fun r => r.id == uid) =
      (l.find? (fun r => r.id == uid)).map
        (fun r => if r.id == u then { r with balance := r.balance + d } else r) := by
  induction l with
  | nil => rfl
  | cons a t ih =>
    by_cases h : a.id = uid
    · rw [updBal, List.map_cons]
      rw [List.find?_cons_of_pos _ (by rw [updBal_row_id]; simp [h]),
        List.find?_cons_of_pos _ (by simp [h]), Option.map_some']
    · rw [updBal, List.map_cons]
      rw [List.find?_cons_of_neg _ (by rw [updBal_row_id]; simp [h]),
        List.find?_cons_of_neg _ (by simp [h])]
      exact ih

/-- Reading a balance after `updBal`: the targeted existing account moves by
`d`, any other account is untouched. -/
theorem getBalance_after_updBal (l : List UserRow) (u uid : Nat) (d : ℚ)
    (h : (l.find? (fun r => r.id == uid)).isSome = true) :
    (((updBal l u d).find? (fun r => r.id == uid)).map UserRow.balance).getD 0
      = ((l.find? (fun r => r.id == uid)).map UserRow.balance).getD 0
        + (if u = uid then d else 0) := by
  obtain ⟨r, hr⟩ := Option.isSome_iff_exists.mp h
  have hrid : r.id = uid := by
    have := List.find?_some hr
    simpa using this
  rw [find?_updBal, hr]
  by_cases huu : u = uid
  · subst huu
    simp [hrid]
  · have hne : r.id ≠ u := fun hh => huu (by rw [← hh, hrid])
    simp [hne, huu]

/-- `updBal` preserves which accounts exist. -/
theorem isSome_find?_updBal (l : List UserRow) (u uid : Nat) (d : ℚ) :
    ((updBal l u d).find? (fun r => r.id == uid)).isSome
      = (l.find? (fun r => r.id == uid)).isSome := by
  rw [find?_updBal]
  cases l.find? (fun r => r.id == uid) <;> rfl

/-- Every operation preserves the existence of every account row: the
handlers only insert trade/deposit rows and map-update balances. -/
theorem userExists_runOp (s : DBState) (op : Op) (uid : Nat)
    (h : userExists s uid = true) : userExists (runOp s op) uid = true := by
  cases op with
  | dep u a =>
    simpa [runOp, deposit, userExists, findUser, isSome_find?_updBal] using h
  | opn u ty a lev p =>
    rw [runOp]
    cases hu : trade s u ty a lev p with
    | error e => exact h
    | ok s' =>
      cases hfu : findUser s u with
      | none => simp [trade, hfu] at hu
      | some usr =>
        simp only [trade, hfu] at hu
        by_cases hc : usr.balance < required_margin p a lev
        · rw [if_pos hc] at hu; exact absurd hu (by simp)
        · rw [if_neg hc] at hu
          injection hu with hu'
          subst hu'
          simpa [userExists, findUser, isSome_find?_updBal] using h
  | cls u tid p =>
    rw [runOp]
    cases hft : findTrade s tid u with
    | none => simpa [close_trade, hft] using h
    | some t =>
      simp only [close_trade, hft]
      simpa [userExists, findUser, isSome_find?_updBal] using h

/-- One step of the accounting identity: each operation moves the balance of
an existing account by exactly its `opDelta`. -/
theorem runOp_getBalance (s : DBState) (op : Op) (uid : Nat)
    (h : userExists s uid = true) :
    getBalance (runOp s op) uid = getBalance s uid + opDelta s uid op := by
  cases op with
  | dep u a =>
    rw [runOp, opDelta, deposit]
    exact getBalance_after_updBal s.users u uid a h
  | opn u ty a lev p =>
    have h' : (s.users.find? (fun r => r.id == uid)).isSome = true := by
      simpa [userExists, findUser] using h
    rw [runOp, opDelta]
    cases hfu : findUser s u with
    | none => simp [trade, hfu]
    | some usr =>
      simp only [trade, hfu]
      by_cases hc : usr.balance < required_margin p a lev
      · rw [if_pos hc, if_pos hc]
        simp
      · rw [if_neg hc, if_neg hc]
        have hb := getBalance_after_updBal s.users u uid
          (-(required_margin p a lev + trade_fee p a)) h'
        simp only [getBalance, findUser]
        rw [hb]
  | cls u tid p =>
    have h' : (s.users.find? (fun r => r.id == uid)).isSome = true := by
      simpa [userExists, findUser] using h
    rw [runOp, opDelta]
    cases hft : findTrade s tid u with
    | none => simp [close_trade, hft]
    | some t =>
      simp only [close_trade, hft]
      have hb := getBalance_after_updBal s.users u uid (calculate_pnl t p) h'
      simp only [getBalance, findUser]
      rw [hb]

/-- C6: for every existing account and every finite sequence of deposit,
open and close operations, the final balance equals the initial balance plus
the sum of the per-operation accounting deltas: each deposited amount, minus
margin+fee at each successful open, plus the PnL credited at each close. -/
theorem balance_conservation (ops : List Op) (s : DBState) (uid : Nat)
    (h : userExists s uid = true) :
    getBalance (runOps s ops) uid = getBalance s uid + sumDeltas s uid ops := by
  induction ops generalizing s with
  | nil => simp [runOps, sumDeltas]
  | cons op ops ih =>
    rw [runOps, sumDeltas, ih (runOp s op) (userExists_runOp s op uid h),
      runOp_getBalance s op uid h]
    ring

/-- Witness for C6 at a concrete account and operation list. -/
theorem balance_conservation_witness :
    getBalance (runOps s10000 opsDemo) 1 = getBalance s10000 1 + sumDeltas s10000 1 opsDemo :=
  balance_conservation opsDemo s10000 1 (by decide)

/-- C1 counterexample: the claimed scenario says opening a long of size 0.1
at leverage 10 and price 50000 from balance 10000 debits margin 5000 and
leaves balance 4995; the code computes margin 500 and leaves balance 9495. -/
theorem scenario_open_balance_counterexample :
    required_margin 50000 (1/10) 10 = 500 ∧
    (trade s10000 1 "long" (1/10) 10 50000).toOption.map (fun s => getBalance s 1)
      = some 9495 ∧
    (9495 : ℚ) ≠ 4995 ∧ (500 : ℚ) ≠ 5000 := by
  norm_num [trade, s10000, findUser, getBalance, updBal, List.find?, required_margin,
    trade_fee, Except.toOption]

/-- C1 as the code actually behaves: from balance 10000, the open debits
margin 500 and fee 5 leaving balance 9495 with one open position whose `fee`
column holds the absolute fee 5; the close at 51000 then computes
PnL = round((51000-50000)*0.1*10 - 50000*0.1*5, 2) = -24000 (the stored
absolute fee is re-multiplied by entry price and size) and leaves balance
-14505 with the position closed. -/
theorem scenario_end_to_end :
    required_margin 50000 (1/10) 10 = 500 ∧
    trade_fee 50000 (1/10) = 5 ∧
    (trade s10000 1 "long" (1/10) 10 50000).toOption.map (fun s =>
        (getBalance s 1, s.trades,
          getBalance (close_trade s 1 1 51000) 1,
          (close_trade s 1 1 51000).trades.map (fun t => (t.status, t.pnl))))
      = some (9495,
          [⟨1, 1, "long", 1/10, 50000, 10, 5, 0, "open"⟩],
          -14505,
          [("closed", -24000)]) := by
  norm_num [trade, s10000, findUser, getBalance, updBal, List.find?, required_margin,
    trade_fee, Except.toOption, close_trade, findTrade, calculate_pnl, round2, round_eq]

/-- C2: closing an already-closed trade again is not rejected: the handler
fetches the row with no status filter, recomputes the PnL and credits it to
the balance a second time, and rewrites the row's `pnl`.  Evaluated at the
failing input: account 1 with balance 100 and one closed trade. -/
theorem double_close_credits_again :
    sClosed.trades.map Trade.status = ["closed"] ∧
    getBalance sClosed 1 = 100 ∧
    getBalance (close_trade sClosed 1 1 51000) 1 = 100 + (-24000) ∧
    (close_trade sClosed 1 1 51000).trades.map Trade.status = ["closed"] := by
  norm_num [sClosed, findUser, getBalance, updBal, List.find?,
    close_trade, findTrade, calculate_pnl, round2, round_eq]

/-- C4 counterexample: a deposit of -5 (≤ 0) does not fail with
`InvalidAmount`: it changes the balance from 10000 to 9995 and records a
`completed` deposit row. -/
theorem deposit_negative_counterexample :
    (-5 : ℚ) ≤ 0 ∧
    getBalance (deposit s10000 1 (-5)) 1 = 9995 ∧ (9995 : ℚ) ≠ 10000 ∧
    (deposit s10000 1 (-5)).deposits = [⟨1, -5, "completed"⟩] := by
  norm_num [getBalance, deposit, findUser, updBal, s10000, List.find?]

/-- C4 amended: the deposit handler performs no validation of the amount at
all: for every amount, positive or not, it moves the balance of an existing
account by exactly that amount, appends a deposit row with status
`completed`, and leaves the trades table unchanged. -/
theorem deposit_unvalidated (s : DBState) (uid : Nat) (amount : ℚ)
    (h : userExists s uid = true) :
    getBalance (deposit s uid amount) uid = getBalance s uid + amount ∧
    (deposit s uid amount).deposits = s.deposits ++ [⟨uid, amount, "completed"⟩] ∧
    (deposit s uid amount).trades = s.trades := by
  refine ⟨?_, rfl, rfl⟩
  have h' : (s.users.find? (fun r => r.id == uid)).isSome = true := by
    simpa [userExists, findUser] using h
  have hb := getBalance_after_updBal s.users uid uid amount h'
  simp only [getBalance, findUser, deposit]
  rw [hb]
  simp

/-- Witness for C4's amended theorem at a concrete input. -/
theorem deposit_unvalidated_witness :
    getBalance (deposit s10000 1 (-5)) 1 = getBalance s10000 1 + (-5) ∧
    (deposit s10000 1 (-5)).deposits = s10000.deposits ++ [⟨1, -5, "completed"⟩] ∧
    (deposit s10000 1 (-5)).trades = s10000.trades :=
  deposit_unvalidated s10000 1 (-5) (by decide)

/-- C3 counterexample: with balance 500, margin 500 and fee 5,
requiredMargin + requiredFee = 505 exceeds the balance, yet the open
succeeds (the check compares against the margin only) and leaves the
balance at -5. -/
theorem open_fee_excluded_counterexample :
    getBalance s500 1 < required_margin 50000 (1/10) 10 + trade_fee 50000 (1/10) ∧
    (trade s500 1 "long" (1/10) 10 50000).toOption.map (fun s => getBalance s 1)
      = some (-5) := by
  norm_num [trade, s500, findUser, getBalance, updBal, List.find?, required_margin,
    trade_fee, Except.toOption]

/-- C3 amended: for an existing account, the open succeeds if and only if
the balance is at least `requiredMargin` alone (price*size*leverage*0.01);
the fee is not part of the check.  When the balance is below the required
margin the handler fails with "Insufficient balance" and, the error being
returned before any write, the state is unchanged. -/
theorem open_margin_check (s : DBState) (uid : Nat) (u : UserRow)
    (ty : String) (amt : ℚ) (lev : ℤ) (p : ℚ)
    (hu : findUser s uid = some u) :
    ((∃ s', trade s uid ty amt lev p = .ok s') ↔ required_margin p amt lev ≤ u.balance) ∧
    (u.balance < required_margin p amt lev →
      trade s uid ty amt lev p = .error "Insufficient balance") := by
  constructor
  · constructor
    · rintro ⟨s', hs'⟩
      simp only [trade, hu] at hs'
      by_cases hc : u.balance < required_margin p amt lev
      · rw [if_pos hc] at hs'
        exact absurd hs' (by simp)
      · exact le_of_not_lt hc
    · intro hle
      refine ⟨{ s with
          trades := s.trades ++
            [⟨s.next_trade_id, uid, ty, amt, p, lev, trade_fee p amt, 0, "open"⟩]
          users := updBal s.users uid (-(required_margin p amt lev + trade_fee p amt))
          next_trade_id := s.next_trade_id + 1 }, ?_⟩
      simp only [trade, hu]
      rw [if_neg (not_lt.mpr hle)]
  · intro hc
    simp only [trade, hu]
    rw [if_pos hc]

/-- Witness for C3's amended theorem: at balance 500 the margin-only check
admits the 500-margin open. -/
theorem open_margin_check_witness :
    ((∃ s', trade s500 1 "long" (1/10) 10 50000 = .ok s') ↔
      required_margin 50000 (1/10) 10 ≤ (⟨1, 500⟩ : UserRow).balance) ∧
    ((⟨1, 500⟩ : UserRow).balance < required_margin 50000 (1/10) 10 →
      trade s500 1 "long" (1/10) 10 50000 = .error "Insufficient balance") :=
  open_margin_check s500 1 ⟨1, 500⟩ "long" (1/10) 10 50000 (by decide)

/-- C5 counterexample: a successful deposit (the handler always succeeds)
of -20000 drives the balance of account 1 from 10000 to -10000 < 0. -/
theorem negative_balance_after_deposit_counterexample :
    getBalance (deposit s10000 1 (-20000)) 1 = -10000 ∧ (-10000 : ℚ) < 0 := by
  norm_num [getBalance, deposit, findUser, updBal, s10000, List.find?]

/-- C5 amended: non-negativity does not hold.  The pre-check covers the
margin only, so the strongest guarantee a successful open gives is
balance ≥ -fee (with fee = price*size*0.001), which is negative for any
positive notional; and deposits are entirely unchecked, so a successful
negative deposit can drive the balance arbitrarily negative.  There is
indeed no clamping: the debit is an unconditional balance update. -/
theorem open_balance_lower_bound (s : DBState) (uid : Nat) (u : UserRow)
    (ty : String) (amt : ℚ) (lev : ℤ) (p b : ℚ)
    (hu : findUser s uid = some u)
    (h : (trade s uid ty amt lev p).toOption.map (fun s' => getBalance s' uid) = some b) :
    -(trade_fee p amt) ≤ b := by
  simp only [trade, hu] at h
  by_cases hc : u.balance < required_margin p amt lev
  · rw [if_pos hc] at h
    simp [Except.toOption] at h
  · rw [if_neg hc] at h
    simp only [Except.toOption, Option.map_some', Option.some.injEq] at h
    have hfind : s.users.find? (fun r => r.id == uid) = some u := by
      simpa [findUser] using hu
    have huid : (u.id == uid) = true := by
      simpa using List.find?_some hfind
    simp only [getBalance, findUser, find?_updBal, hfind, Option.map_some', huid,
      if_true, Option.getD_some] at h
    subst h
    have := not_lt.mp hc
    linarith

/-- Witness for C5's amended theorem: the scenario open leaves balance 9495,
which is at least -5 = -(fee). -/
theorem open_balance_lower_bound_witness :
    -(trade_fee 50000 (1/10)) ≤ (9495 : ℚ) :=
  open_balance_lower_bound s10000 1 ⟨1, 10000⟩ "long" (1/10) 10 50000 9495
    (by decide)
    (by norm_num [trade, s10000, findUser, getBalance, updBal, List.find?,
      required_margin, trade_fee, Except.toOption])

/-- C7: `calculate_pnl` is a pure function of the trade row and the current
price: for side `long` it returns the rounded
`(currentPrice - entryPrice)*size*leverage - entryPrice*size*fee`, for any
other side the rounded `(entryPrice - currentPrice)*size*leverage` minus the
same fee term (`fee` being the row's fee-rate column), and for size 0 the
result is 0. -/
theorem calculate_pnl_spec (t : Trade) (p : ℚ) :
    (t.type = "long" →
      calculate_pnl t p
        = round2 ((p - t.entry_price) * t.amount * (t.leverage : ℚ)
            - t.entry_price * t.amount * t.fee)) ∧
    (t.type ≠ "long" →
      calculate_pnl t p
        = round2 ((t.entry_price - p) * t.amount * (t.leverage : ℚ)
            - t.entry_price * t.amount * t.fee)) ∧
    (t.amount = 0 → calculate_pnl t p = 0) := by
  refine ⟨fun h => by simp [calculate_pnl, h], fun h => by simp [calculate_pnl, h],
    fun h => ?_⟩
  by_cases hl : t.type = "long"
  · simp [calculate_pnl, hl, h, round2]
  · simp [calculate_pnl, hl, h, round2]

/-- Witness for C7 at concrete long, short-by-default and zero-size trades. -/
theorem calculate_pnl_spec_witness :
    (calculate_pnl ⟨1, 1, "long", 1/10, 50000, 10, 1/1000, 0, "open"⟩ 51000
      = round2 ((51000 - 50000) * (1/10) * ((10 : ℤ) : ℚ) - 50000 * (1/10) * (1/1000))) ∧
    (calculate_pnl ⟨2, 1, "short", 1/10, 50000, 10, 1/1000, 0, "open"⟩ 51000
      = round2 ((50000 - 51000) * (1/10) * ((10 : ℤ) : ℚ) - 50000 * (1/10) * (1/1000))) ∧
    (calculate_pnl ⟨3, 1, "long", 0, 50000, 10, 1/1000, 0, "open"⟩ 51000 = 0) :=
  ⟨(calculate_pnl_spec ⟨1, 1, "long", 1/10, 50000, 10, 1/1000, 0, "open"⟩ 51000).1 rfl,
   (calculate_pnl_spec ⟨2, 1, "short", 1/10, 50000, 10, 1/1000, 0, "open"⟩ 51000).2.1
     (by decide),
   (calculate_pnl_spec ⟨3, 1, "long", 0, 50000, 10, 1/1000, 0, "open"⟩ 51000).2.2 rfl⟩

/-- C8 counterexample: the price fetch does not validate the upstream value,
so a successfully parsed response of 0 is returned as is — the function does
not always return a strictly positive value. -/
theorem refresh_positive_counterexample :
    get_btc_price (.price 0) 45000 = 0 ∧ ¬ 0 < get_btc_price (.price 0) 45000 :=
  ⟨rfl, by rw [show get_btc_price (.price 0) 45000 = 0 from rfl]; exact lt_irrefl 0⟩

/-- C8 amended: on upstream failure the fallback — the random sample from
[30000, 60000] rounded to 2 decimal places — stays in [30000, 60000] and is
strictly positive; on upstream success the parsed value is returned without
any positivity validation. -/
theorem fallback_in_range (r : ℚ) (h1 : 30000 ≤ r) (h2 : r ≤ 60000) :
    0 < get_btc_price .failure r ∧
    30000 ≤ get_btc_price .failure r ∧
    get_btc_price .failure r ≤ 60000 := by
  have hlo : (3000000 : ℤ) ≤ round (r * 100) := by
    rw [round_eq, Int.le_floor]
    push_cast
    linarith
  have hhi : round (r * 100) ≤ 6000000 := by
    rw [round_eq]
    have h3 : (r * 100 + 1/2 : ℚ) ≤ 6000000 + 1/2 := by linarith
    have h4 := Int.floor_mono h3
    have h5 : ⌊(6000000 + 1/2 : ℚ)⌋ = 6000000 := by
      rw [Int.floor_eq_iff]
      norm_num
    rw [h5] at h4
    exact h4
  have hloQ : (3000000 : ℚ) ≤ ((round (r * 100) : ℤ) : ℚ) := by exact_mod_cast hlo
  have hhiQ : ((round (r * 100) : ℤ) : ℚ) ≤ 6000000 := by exact_mod_cast hhi
  simp only [get_btc_price, round2]
  refine ⟨by linarith, by linarith, by linarith⟩

/-- Witness for C8's amended theorem at sample 45000. -/
theorem fallback_in_range_witness :
    0 < get_btc_price .failure 45000 ∧
    30000 ≤ get_btc_price .failure 45000 ∧
    get_btc_price .failure 45000 ≤ 60000 :=
  fallback_in_range 45000 (by norm_num) (by norm_num)

/-- C9: the open handler stores whatever side string it is given — for any
`ty`, when the margin check passes the trade row is created verbatim with
`type = ty` — and `calculate_pnl` treats every side other than exactly
"long" with the short formula. -/
theorem side_any_string (ty : String) (t : Trade) (pr : ℚ)
    (s : DBState) (uid : Nat) (u : UserRow) (amt : ℚ) (lev : ℤ) (p : ℚ)
    (hu : findUser s uid = some u) (hm : ¬ u.balance < required_margin p amt lev) :
    (∃ s', trade s uid ty amt lev p = .ok s' ∧
      s'.trades = s.trades ++
        [⟨s.next_trade_id, uid, ty, amt, p, lev, trade_fee p amt, 0, "open"⟩]) ∧
    (ty ≠ "long" → t.type = ty →
      calculate_pnl t pr
        = round2 ((t.entry_price - pr) * t.amount * (t.leverage : ℚ)
            - t.entry_price * t.amount * t.fee)) := by
  constructor
  · refine ⟨{ s with
        trades := s.trades ++
          [⟨s.next_trade_id, uid, ty, amt, p, lev, trade_fee p amt, 0, "open"⟩]
        users := updBal s.users uid (-(required_margin p amt lev + trade_fee p amt))
        next_trade_id := s.next_trade_id + 1 }, ?_, rfl⟩
    simp only [trade, hu]
    rw [if_neg hm]
  · intro hne hty
    simp [calculate_pnl, hty, hne]

/-- Witness for C9 at the misspelled side "lonk": the open succeeds and
stores it, and the PnL takes the short branch. -/
theorem side_any_string_witness :
    (∃ s', trade s10000 1 "lonk" (1/10) 10 50000 = .ok s' ∧
      s'.trades = s10000.trades ++
        [⟨s10000.next_trade_id, 1, "lonk", 1/10, 50000, 10, trade_fee 50000 (1/10), 0,
          "open"⟩]) ∧
    calculate_pnl ⟨7, 1, "lonk", 1/10, 50000, 10, 5, 0, "open"⟩ 51000
      = round2 ((50000 - 51000) * (1/10) * ((10 : ℤ) : ℚ) - 50000 * (1/10) * 5) :=
  ⟨(side_any_string "lonk" ⟨7, 1, "lonk", 1/10, 50000, 10, 5, 0, "open"⟩ 51000
      s10000 1 ⟨1, 10000⟩ (1/10) 10 50000 (by decide)
      (by norm_num [required_margin])).1,
   (side_any_string "lonk" ⟨7, 1, "lonk", 1/10, 50000, 10, 5, 0, "open"⟩ 51000
      s10000 1 ⟨1, 10000⟩ (1/10) 10 50000 (by decide)
      (by norm_num [required_margin])).2 (by decide) rfl⟩

/-- C10: the open handler validates neither `size > 0` nor `leverage ≥ 1`
beyond parsing.  For positive price and leverage ≥ 1: any size ≤ 0 makes the
required margin ≤ 0, so the margin check passes for any non-negative balance
and a trade row is still inserted; and for size < 0 the debit of margin+fee
strictly increases the balance. -/
theorem open_no_size_validation (s : DBState) (uid : Nat) (u : UserRow)
    (ty : String) (amt : ℚ) (lev : ℤ) (p : ℚ)
    (hu : findUser s uid = some u) (hp : 0 < p) (hlev : 1 ≤ lev) :
    (amt ≤ 0 → required_margin p amt lev ≤ 0) ∧
    (amt ≤ 0 → 0 ≤ u.balance →
      ∃ s', trade s uid ty amt lev p = .ok s' ∧
        s'.trades.length = s.trades.length + 1) ∧
    (amt < 0 → 0 ≤ u.balance →
      (trade s uid ty amt lev p).toOption.map (fun s' => getBalance s' uid)
        = some (u.balance - (required_margin p amt lev + trade_fee p amt)) ∧
      u.balance < u.balance - (required_margin p amt lev + trade_fee p amt)) := by
  have hlq : (1 : ℚ) ≤ (lev : ℚ) := by exact_mod_cast hlev
  have hmargin : amt ≤ 0 → required_margin p amt lev ≤ 0 := by
    intro hamt
    have h1 : p * amt ≤ 0 := mul_nonpos_iff.mpr (Or.inl ⟨hp.le, hamt⟩)
    have h2 : p * amt * (lev : ℚ) ≤ 0 :=
      mul_nonpos_iff.mpr (Or.inr ⟨h1, by linarith⟩)
    have h3 : p * amt * (lev : ℚ) * (1/100) ≤ 0 :=
      mul_nonpos_iff.mpr (Or.inr ⟨h2, by norm_num⟩)
    simpa [required_margin] using h3
  refine ⟨hmargin, ?_, ?_⟩
  · intro hamt hbal
    have hm : ¬ u.balance < required_margin p amt lev :=
      not_lt.mpr (le_trans (hmargin hamt) hbal)
    refine ⟨{ s with
        trades := s.trades ++
          [⟨s.next_trade_id, uid, ty, amt, p, lev, trade_fee p amt, 0, "open"⟩]
        users := updBal s.users uid (-(required_margin p amt lev + trade_fee p amt))
        next_trade_id := s.next_trade_id + 1 }, ?_, by simp⟩
    simp only [trade, hu]
    rw [if_neg hm]
  · intro hamt hbal
    have hm : ¬ u.balance < required_margin p amt lev :=
      not_lt.mpr (le_trans (hmargin hamt.le) hbal)
    have hfee : trade_fee p amt < 0 := by
      have : p * amt < 0 := mul_neg_of_pos_of_neg hp hamt
      have := mul_neg_of_neg_of_pos this (show (0:ℚ) < 1/1000 by norm_num)
      simpa [trade_fee] using this
    constructor
    · simp only [trade, hu]
      rw [if_neg hm]
      simp only [Except.toOption, Option.map_some', Option.some.injEq]
      have hfind : s.users.find? (fun r => r.id == uid) = some u := by
        simpa [findUser] using hu
      have huid : (u.id == uid) = true := by
        simpa using List.find?_some hfind
      simp only [getBalance, findUser, find?_updBal, hfind, Option.map_some', huid,
        if_true, Option.getD_some]
      ring
    · have := hmargin hamt.le
      linarith

/-- Witness for C10: with balance 100, a "short" of size -1 at leverage 5
and price 50000 passes the margin check (margin -2500 ≤ 0), inserts a row,
and increases the balance to 2650. -/
theorem open_no_size_validation_witness :
    (required_margin 50000 (-1) 5 ≤ 0) ∧
    (∃ s', trade s100 1 "short" (-1) 5 50000 = .ok s' ∧
      s'.trades.length = s100.trades.length + 1) ∧
    ((trade s100 1 "short" (-1) 5 50000).toOption.map (fun s' => getBalance s' 1)
      = some ((100 : ℚ) - (required_margin 50000 (-1) 5 + trade_fee 50000 (-1))) ∧
     (100 : ℚ) < 100 - (required_margin 50000 (-1) 5 + trade_fee 50000 (-1))) :=
  ⟨(open_no_size_validation s100 1 ⟨1, 100⟩ "short" (-1) 5 50000 (by decide)
      (by norm_num) (by norm_num)).1 (by norm_num),
   (open_no_size_validation s100 1 ⟨1, 100⟩ "short" (-1) 5 50000 (by decide)
      (by norm_num) (by norm_num)).2.1 (by norm_num) (by norm_num),
   (open_no_size_validation s100 1 ⟨1, 100⟩ "short" (-1) 5 50000 (by decide)
      (by norm_num) (by norm_num)).2.2 (by norm_num) (by norm_num)⟩

end Pvp
